import Mathlib

/-!
Shallow embedding of the crossword CSP solver in `src/generate.py`
(class `CrosswordCreator`), together with theorems settling the claims
about it.

Modelling conventions:
* Python sets and dicts are modelled by Lean lists; the list order models
  the (arbitrary but fixed) Python iteration order.  Python dict update
  keeps the position of an existing key and appends a fresh key, which
  `dictInsert` reproduces.
* Python strings are `List Char`; `word[i]` is `List.getD` (the theorems
  about indexed access are only invoked with in-range indices, which is the
  well-formedness assumption the spec places on problem instances).
* The solver state (`self.domains`, and `self.crossword.variables`, which
  `select_unassigned_variable` mutates in place) is threaded explicitly as
  a `CSPState`.
* The `Crossword` collaborator class lives in `crossword.py`, which is not
  part of the sources; its overlap table and `neighbors` method are
  modelled from the spec (see `neighbors` below).  The overlap table `ov`
  is an immutable parameter of every operation.
* The Python `while` loop of `ac3` and the recursion of `backtrack` are
  given a fuel parameter; exhausting fuel in `ac3` yields the
  not-yet-failed answer `(true, s)`, so a `false` result always comes from
  a genuine empty-domain detection.  `backtrack` returns
  `Except Unit (Option Assignment × CSPState)`: the `Except.error` value
  models the uncaught Python `KeyError` raised when
  `select_unassigned_variable` falls through to its `('x', inf)` sentinel
  and `self.domains['x']` is looked up (fuel exhaustion is also mapped to
  `Except.error`; it is unreachable for adequate fuel).
-/

namespace CrosswordCSP

/-- Direction of a word slot (`Variable.ACROSS` / `Variable.DOWN` in
`crossword.py`, used by the spec's data model). -/
inductive Direction where
  | across
  | down
deriving DecidableEq, Repr

/-- A word-slot variable: start row `i`, start column `j`, direction and
required length.  Two variables are equal iff all four attributes match. -/
structure Variable where
  i : Nat
  j : Nat
  direction : Direction
  length : Nat
deriving DecidableEq, Repr

/-- A candidate word, i.e. a Python string. -/
abbrev Word := List Char

/-- A (partial) assignment: the Python dict mapping variables to words,
as an insertion-ordered association list. -/
abbrev Assignment := List (Variable × Word)

/-- The overlap table `self.crossword.overlaps`: for an ordered pair of
distinct variables, either `none` (no shared cell) or `some (i, j)`
meaning the `i`-th letter of the first variable's word must equal the
`j`-th letter of the second's. -/
abbrev Overlaps := Variable → Variable → Option (Nat × Nat)

/-- The mutable solver state: `vars` is `self.crossword.variables`
(a Python set, which `select_unassigned_variable` mutates in place),
`domKeys` is the key set of the dict `self.domains` (fixed at
construction), and `domains` is the lookup into that dict. -/
structure CSPState where
  vars : List Variable
  domKeys : List Variable
  domains : Variable → List Word

/-- `CrosswordCreator.__init__`: `self.domains` maps every variable of the
crossword to (a copy of) the full vocabulary. -/
def initState (vars0 : List Variable) (ws : List Word) : CSPState :=
  { vars := vars0, domKeys := vars0, domains := fun _ => ws }

/-- Python dict assignment `d[k] = v`: replace the value in place if the
key is present, otherwise append the new binding. -/
def dictInsert (a : Assignment) (k : Variable) (v : Word) : Assignment :=
  if a.any (fun p => decide (p.1 = k)) then
    a.map (fun p => if p.1 = k then (k, v) else p)
  else a ++ [(k, v)]

/-- Modelled from the spec: `Crossword.neighbors` of `crossword.py` is not
among the sources.  Per the spec's data model, the neighbor set of a
variable `x` is the set of all other variables that share a nonempty
overlap with `x`, derived from the overlap relation (the membership test
reads the current variable set). -/
def neighbors (ov : Overlaps) (s : CSPState) (x : Variable) : List Variable :=
  s.vars.filter (fun v => decide (v ≠ x) && (ov v x).isSome)

/-- `CrosswordCreator.enforce_node_consistency`: keep in each variable's
domain exactly the words whose length equals the variable's length. -/
def enforce_node_consistency (s : CSPState) : CSPState :=
  { s with
    domains := fun var => (s.domains var).filter (fun word => decide (word.length = var.length)) }

/-- `CrosswordCreator.revise`: if `x` and `y` do not overlap, return
`False` and change nothing; otherwise keep in `x`'s domain the words
having at least one support in `y`'s domain at the overlap indices, and
return whether the domain actually changed. -/
def revise (ov : Overlaps) (s : CSPState) (x y : Variable) : Bool × CSPState :=
  match ov x y with
  | none => (false, s)
  | some (i, j) =>
    let arcConsistentXY := (s.domains x).filter (fun wordX =>
      (s.domains y).any (fun wordY => decide (wordX.getD i ' ' = wordY.getD j ' ')))
    if arcConsistentXY = s.domains x then (false, s)
    else (true, { s with domains := Function.update s.domains x arcConsistentXY })

/-- The `for z in self.crossword.neighbors(x)` re-enqueueing loop inside
`CrosswordCreator.ac3`: append `(z, x)` for every neighbor `z` of `x`
unless that arc is already pending in the queue. -/
def enqueueArcs (ov : Overlaps) (s : CSPState) (x : Variable)
    (arcs : List (Variable × Variable)) : List (Variable × Variable) :=
  (neighbors ov s x).foldl (fun acc z => if (z, x) ∈ acc then acc else acc ++ [(z, x)]) arcs

/-- The `while arcs:` loop of `CrosswordCreator.ac3`, with fuel.  Each
step pops the front arc `(x, y)`, runs `revise`; on a revision it fails
with `false` if `x`'s domain became empty and otherwise re-enqueues the
neighbor arcs of `x`.  Exhausted fuel returns the not-failed answer
`(true, s)`, so a `false` result always witnesses an empty domain. -/
def ac3core (ov : Overlaps) : Nat → CSPState → List (Variable × Variable) → Bool × CSPState
  | 0, s, _ => (true, s)
  | fuel + 1, s, arcs =>
    match arcs with
    | [] => (true, s)
    | (x, y) :: rest =>
      let p := revise ov s x y
      if p.1 then
        if (p.2.domains x).length = 0 then (false, p.2)
        else ac3core ov fuel p.2 (enqueueArcs ov p.2 x rest)
      else ac3core ov fuel p.2 rest

/-- `CrosswordCreator.ac3`: when no arc list is supplied, start from all
ordered pairs of distinct variables of `self.domains`. -/
def ac3 (ov : Overlaps) (fuel : Nat) (s : CSPState)
    (arcs : Option (List (Variable × Variable))) : Bool × CSPState :=
  let arcs0 := match arcs with
    | none =>
      s.domKeys.flatMap (fun x => (s.domKeys.filter (fun y => decide (y ≠ x))).map (fun y => (x, y)))
    | some l => l
  ac3core ov fuel s arcs0

/-- `CrosswordCreator.assignment_complete`: the assignment is complete iff
its size equals the number of keys of `self.domains`. -/
def assignment_complete (s : CSPState) (a : Assignment) : Bool :=
  decide (a.length = s.domKeys.length)

/-- `CrosswordCreator.consistent`.  The source's `return True` sits inside
the outer `for x, wordX in assignment.items()` loop, so only the first
assigned variable is ever examined: the function returns after checking
that first variable's length, word-reuse and overlaps against all entries.
On an empty assignment the loop body never runs and the function falls
through, returning Python `None`, modelled as `Option.none`. -/
def consistent (ov : Overlaps) (s : CSPState) (a : Assignment) : Option Bool :=
  match a with
  | [] => none
  | (x, wordX) :: _ =>
    if wordX.length ≠ x.length then some false
    else
      some (a.all (fun q =>
        if x ≠ q.1 then
          if wordX = q.2 then false
          else if q.1 ∈ neighbors ov s x then
            match ov x q.1 with
            | some (i, j) => decide (wordX.getD i ' ' = q.2.getD j ' ')
            | none => true
          else true
        else true))

/-- Stable insertion of a `(word, eliminate-count)` pair after every entry
with a smaller-or-equal count. -/
def insertByCount (p : Word × Nat) : List (Word × Nat) → List (Word × Nat)
  | [] => [p]
  | q :: rest => if q.2 ≤ p.2 then q :: insertByCount p rest else p :: q :: rest

/-- Stable ascending sort by eliminate-count, the behaviour of the
source's `domainOrder.sort(key=lambda item: item[1])` (Python's sort is
stable). -/
def sortByCount (l : List (Word × Nat)) : List (Word × Nat) :=
  l.foldl (fun acc p => insertByCount p acc) []

/-- `CrosswordCreator.order_domain_values`: pair every word of `var`'s
domain with the number of words it would eliminate from the domains of
unassigned neighbors, then sort ascending by that count.  A neighbor
always has a nonempty overlap with `var`; the `none` overlap branch is
unreachable there (in Python it would raise). -/
def order_domain_values (ov : Overlaps) (s : CSPState) (var : Variable) (a : Assignment) :
    List Word :=
  let domainOrder := (s.domains var).map (fun wordX =>
    (wordX,
      (neighbors ov s var).foldl (fun eliminate y =>
        if a.any (fun p => decide (p.1 = y)) then eliminate
        else
          match ov var y with
          | some (i, j) =>
            eliminate + ((s.domains y).filter (fun wordY =>
              decide (wordX.getD i ' ' ≠ wordY.getD j ' '))).length
          | none => eliminate) 0))
  (sortByCount domainOrder).map Prod.fst

/-- Python set comparison `A > B` (strict superset), exactly the
comparison `select_unassigned_variable` applies to neighbor sets. -/
def pySetGT (A B : List Variable) : Bool :=
  B.all (fun v => decide (v ∈ A)) && !(A.all (fun v => decide (v ∈ B)))

/-- The body of the `for var in variables` loop of
`CrosswordCreator.select_unassigned_variable`.  The accumulator `none`
models the initial sentinel `less = ('x', inf)`: every finite count is
smaller than `inf` and never equal to it, so the first variable always
replaces the sentinel. -/
def selectStep (ov : Overlaps) (s : CSPState) (a : Assignment)
    (less : Option (Variable × Nat)) (var : Variable) : Option (Variable × Nat) :=
  let nValues := (order_domain_values ov s var a).length
  match less with
  | none => some (var, nValues)
  | some (lessVar, lessN) =>
    if nValues < lessN then some (var, nValues)
    else if nValues = lessN then
      if pySetGT (neighbors ov s var) (neighbors ov s lessVar) then some (var, nValues)
      else some (lessVar, lessN)
    else some (lessVar, lessN)

/-- `CrosswordCreator.select_unassigned_variable`.  Note that the source's
`variables.difference_update(assignment)` removes the assigned variables
from `self.crossword.variables` itself, so the crossword's variable set is
mutated; the returned `none` models the sentinel string `'x'` surviving an
empty loop. -/
def select_unassigned_variable (ov : Overlaps) (s : CSPState) (a : Assignment) :
    Option Variable × CSPState :=
  let vars1 := s.vars.filter (fun v => !(a.any (fun p => decide (p.1 = v))))
  let s1 := { s with vars := vars1 }
  let less := vars1.foldl (selectStep ov s1 a) none
  (less.map Prod.fst, s1)

/-- The guard `result != False` of `CrosswordCreator.backtrack`:
`backtrack` only ever returns `None` or a dict, and in Python both
`None != False` and `dict != False` are `True`, so the guard holds
unconditionally and the `assignment.pop(var)` line below it is dead
code. -/
def neqFalse (_ : Option Assignment) : Bool :=
  true

/-- The `for value in values` loop of `CrosswordCreator.backtrack`:
assign the candidate, recurse, and return the recursive result when the
`result != False` guard holds (it always does); an empty candidate list
falls through to `return None`. -/
def backtrackLoop (recur : CSPState → Assignment → Except Unit (Option Assignment × CSPState))
    (a : Assignment) (var : Variable) :
    List Word → CSPState → Except Unit (Option Assignment × CSPState)
  | [], s => Except.ok (none, s)
  | value :: rest, s =>
    match recur s (dictInsert a var value) with
    | Except.error e => Except.error e
    | Except.ok (result, s1) =>
      if neqFalse result then Except.ok (result, s1)
      else backtrackLoop recur a var rest s1

/-- `CrosswordCreator.backtrack`, with fuel.  A complete assignment is
returned immediately; otherwise a variable is selected and its ordered
candidates are looped over.  When `select_unassigned_variable` returns its
`'x'` sentinel, the Python code raises `KeyError` on `self.domains['x']`,
modelled as `Except.error ()`. -/
def backtrack (ov : Overlaps) : Nat → CSPState → Assignment →
    Except Unit (Option Assignment × CSPState)
  | 0, _, _ => Except.error ()
  | fuel + 1, s, a =>
    if assignment_complete s a then Except.ok (some a, s)
    else
      let p := select_unassigned_variable ov s a
      match p.1 with
      | none => Except.error ()
      | some var => backtrackLoop (backtrack ov fuel) a var (order_domain_values ov p.2 var a) p.2

/-- `CrosswordCreator.solve`: enforce node consistency, run `ac3`
(discarding its Boolean result, as the source does), then backtrack from
the empty assignment. -/
def solve (ov : Overlaps) (fuel : Nat) (s : CSPState) :
    Except Unit (Option Assignment × CSPState) :=
  let s1 := enforce_node_consistency s
  let p := ac3 ov fuel s1 none
  backtrack ov fuel p.2 []

/-- Two sequential invocations of `solve` on the same solver object: the
second invocation starts from the state the first one left behind.  The
result records the assignment-or-`None` outcome of each invocation. -/
def solveTwice (ov : Overlaps) (fuel : Nat) (s : CSPState) :
    Except Unit (Option Assignment) × Except Unit (Option Assignment) :=
  match solve ov fuel s with
  | Except.ok (r1, s1) => (Except.ok r1, (solve ov fuel s1).map Prod.fst)
  | Except.error e => (Except.error e, Except.error e)

/-- Two assignment entries agree at their overlap, if any: used to state
the specification-side consistency condition. -/
def overlapAgrees (ov : Overlaps) (p q : Variable × Word) : Bool :=
  match ov p.1 q.1 with
  | some (i, j) => decide (p.2.getD i ' ' = q.2.getD j ' ')
  | none => true

/-- The specification's notion of a consistent assignment (stated from the
claims, for comparison with the source's `consistent`): every assigned
word has its variable's length, assigned words are pairwise distinct, and
every pair of distinct assigned variables agrees on the letters at its
overlap indices. -/
def specConsistentAssignment (ov : Overlaps) (a : Assignment) : Prop :=
  (∀ p ∈ a, p.2.length = p.1.length) ∧
  a.Pairwise (fun p q => p.2 ≠ q.2) ∧
  (∀ p ∈ a, ∀ q ∈ a, p.1 ≠ q.1 → overlapAgrees ov p q = true)

instance (ov : Overlaps) (a : Assignment) : Decidable (specConsistentAssignment ov a) := by
  unfold specConsistentAssignment
  infer_instance

/-! ### Concrete problem instances used to evaluate the code -/

/-- A length-3 across slot. -/
def varA : Variable := ⟨0, 0, Direction.across, 3⟩

/-- A length-3 down slot crossing `varA` at its first letter. -/
def varB : Variable := ⟨0, 0, Direction.down, 3⟩

/-- Overlap table of the two-variable instance: `varA` and `varB` share
their cell `(0, 0)`, i.e. letter index `0` of each. -/
def ovAB : Overlaps := fun u v =>
  if (u = varA ∧ v = varB) ∨ (u = varB ∧ v = varA) then some (0, 0) else none

/-- The word `"aaa"`. -/
def wordAAA : Word := ['a', 'a', 'a']

/-- The word `"bbb"`. -/
def wordBBB : Word := ['b', 'b', 'b']

/-- Vocabulary of the two-variable instance. -/
def words2 : List Word := [wordAAA, wordBBB]

/-- Initial solver state of the two-variable instance. -/
def state2 : CSPState := initState [varA, varB] words2

/-- Three pairwise non-overlapping length-3 slots (for exercising the
word-reuse check of `consistent`). -/
def varX : Variable := ⟨0, 0, Direction.across, 3⟩

/-- Second slot of the no-overlap instance. -/
def varY : Variable := ⟨1, 0, Direction.across, 3⟩

/-- Third slot of the no-overlap instance. -/
def varZ : Variable := ⟨2, 0, Direction.across, 3⟩

/-- Overlap table with no overlaps at all. -/
def ovNone : Overlaps := fun _ _ => none

/-- State of the no-overlap three-variable instance. -/
def state3 : CSPState := initState [varX, varY, varZ] words2

/-- An assignment whose second and third entries reuse the same word
while the first entry conflicts with nobody. -/
def assignYZreuse : Assignment := [(varX, wordAAA), (varY, wordBBB), (varZ, wordBBB)]

/-- Length-1 slot used in the `revise`/`ac3` instances. -/
def varP : Variable := ⟨3, 0, Direction.across, 1⟩

/-- Length-1 slot overlapping `varP`. -/
def varQ : Variable := ⟨3, 0, Direction.down, 1⟩

/-- Overlap table of the `varP`/`varQ` instance. -/
def ovPQ : Overlaps := fun u v =>
  if (u = varP ∧ v = varQ) ∨ (u = varQ ∧ v = varP) then some (0, 0) else none

/-- A state in which `varP`'s domain is `{"a", "b"}` and `varQ`'s is
`{"a"}`, so `revise(varP, varQ)` prunes `"b"`. -/
def state5 : CSPState :=
  { vars := [varP, varQ], domKeys := [varP, varQ],
    domains := fun v => if v = varP then [['a'], ['b']] else [['a']] }

/-- Length-1 slot of the unsatisfiable instance. -/
def varC : Variable := ⟨5, 0, Direction.across, 1⟩

/-- Length-2 slot of the unsatisfiable instance, crossing `varC`. -/
def varD : Variable := ⟨5, 0, Direction.down, 2⟩

/-- Overlap table of the unsatisfiable instance: first letters must
agree. -/
def ovCD : Overlaps := fun u v =>
  if (u = varC ∧ v = varD) ∨ (u = varD ∧ v = varC) then some (0, 0) else none

/-- Vocabulary of the unsatisfiable instance: the only length-1 word is
`"a"`, the only length-2 word is `"bc"`, and their first letters differ,
so arc consistency empties `varC`'s domain. -/
def wordsCD : List Word := [['a'], ['b', 'c']]

/-- Initial state of the unsatisfiable instance. -/
def stateCD : CSPState := initState [varC, varD] wordsCD

/-- Degree-heuristic instance, slot with one neighbor. -/
def varV1 : Variable := ⟨0, 0, Direction.across, 1⟩

/-- Degree-heuristic instance, slot with two neighbors. -/
def varV2 : Variable := ⟨1, 0, Direction.across, 1⟩

/-- Sole neighbor of `varV1`. -/
def varN1 : Variable := ⟨2, 0, Direction.across, 1⟩

/-- First neighbor of `varV2`. -/
def varN2 : Variable := ⟨3, 0, Direction.across, 1⟩

/-- Second neighbor of `varV2`. -/
def varN3 : Variable := ⟨4, 0, Direction.across, 1⟩

/-- Overlap table of the degree-heuristic instance: `varV1`–`varN1` and
`varV2`–`varN2`, `varV2`–`varN3` overlap; nothing else does.  So `varV1`
has degree 1 and `varV2` degree 2, with incomparable neighbor sets. -/
def ov8 : Overlaps := fun u v =>
  if (u = varV1 ∧ v = varN1) ∨ (u = varN1 ∧ v = varV1) ∨
     (u = varV2 ∧ v = varN2) ∨ (u = varN2 ∧ v = varV2) ∨
     (u = varV2 ∧ v = varN3) ∨ (u = varN3 ∧ v = varV2) then some (0, 0) else none

/-- Vocabulary of the degree-heuristic instance: two length-1 words, so
every variable has the same domain size and the heuristic must fall to the
degree tie-break. -/
def words8 : List Word := [['a'], ['b']]

/-- Initial state of the degree-heuristic instance. -/
def state8 : CSPState := initState [varV1, varV2, varN1, varN2, varN3] words8

/-! ### Helper lemmas -/

theorem revise_snd_vars (ov : Overlaps) (s : CSPState) (x y : Variable) :
    (revise ov s x y).2.vars = s.vars := by
  unfold revise
  split
  · rfl
  · dsimp only
    split <;> rfl

theorem revise_snd_domKeys (ov : Overlaps) (s : CSPState) (x y : Variable) :
    (revise ov s x y).2.domKeys = s.domKeys := by
  unfold revise
  split
  · rfl
  · dsimp only
    split <;> rfl

theorem mem_enqueue_foldl (x : Variable) :
    ∀ (l : List Variable) (arcs : List (Variable × Variable)) (q : Variable × Variable),
      q ∈ l.foldl (fun acc z => if (z, x) ∈ acc then acc else acc ++ [(z, x)]) arcs →
      q ∈ arcs ∨ ∃ z ∈ l, q = (z, x) := by
  intro l
  induction l with
  | nil => exact fun arcs q hq => Or.inl hq
  | cons z l ih =>
    intro arcs q hq
    rw [List.foldl_cons] at hq
    rcases ih _ q hq with h | ⟨z1, hz1, rfl⟩
    · by_cases hmem : (z, x) ∈ arcs
      · rw [if_pos hmem] at h
        exact Or.inl h
      · rw [if_neg hmem] at h
        rcases List.mem_append.mp h with h1 | h1
        · exact Or.inl h1
        · exact Or.inr ⟨z, List.mem_cons_self z l, List.mem_singleton.mp h1⟩
    · exact Or.inr ⟨z1, List.mem_cons_of_mem z hz1, rfl⟩

theorem mem_of_mem_neighbors (ov : Overlaps) (s : CSPState) (x z : Variable)
    (h : z ∈ neighbors ov s x) : z ∈ s.vars :=
  List.mem_of_mem_filter h

theorem ac3core_snd_vars (ov : Overlaps) :
    ∀ (fuel : Nat) (s : CSPState) (arcs : List (Variable × Variable)),
      (ac3core ov fuel s arcs).2.vars = s.vars := by
  intro fuel
  induction fuel with
  | zero => exact fun s arcs => rfl
  | succ n ih =>
    intro s arcs
    match arcs with
    | [] => rfl
    | (x, y) :: rest =>
      simp only [ac3core]
      by_cases hb : (revise ov s x y).1 = true
      · rw [if_pos hb]
        by_cases hlen : ((revise ov s x y).2.domains x).length = 0
        · rw [if_pos hlen]
          exact revise_snd_vars ov s x y
        · rw [if_neg hlen, ih]
          exact revise_snd_vars ov s x y
      · rw [if_neg hb, ih]
        exact revise_snd_vars ov s x y

theorem ac3core_snd_domKeys (ov : Overlaps) :
    ∀ (fuel : Nat) (s : CSPState) (arcs : List (Variable × Variable)),
      (ac3core ov fuel s arcs).2.domKeys = s.domKeys := by
  intro fuel
  induction fuel with
  | zero => exact fun s arcs => rfl
  | succ n ih =>
    intro s arcs
    match arcs with
    | [] => rfl
    | (x, y) :: rest =>
      simp only [ac3core]
      by_cases hb : (revise ov s x y).1 = true
      · rw [if_pos hb]
        by_cases hlen : ((revise ov s x y).2.domains x).length = 0
        · rw [if_pos hlen]
          exact revise_snd_domKeys ov s x y
        · rw [if_neg hlen, ih]
          exact revise_snd_domKeys ov s x y
      · rw [if_neg hb, ih]
        exact revise_snd_domKeys ov s x y

theorem ac3core_false_empty (ov : Overlaps) :
    ∀ (fuel : Nat) (s : CSPState) (arcs : List (Variable × Variable)),
      (∀ q ∈ arcs, q.1 ∈ s.vars) →
      (ac3core ov fuel s arcs).1 = false →
      ∃ v ∈ s.vars, (ac3core ov fuel s arcs).2.domains v = [] := by
  intro fuel
  induction fuel with
  | zero => exact fun s arcs _ hf => absurd hf (by simp [ac3core])
  | succ n ih =>
    intro s arcs hq hf
    match arcs with
    | [] => exact absurd hf (by simp [ac3core])
    | (x, y) :: rest =>
      simp only [ac3core] at hf ⊢
      by_cases hb : (revise ov s x y).1 = true
      · rw [if_pos hb] at hf ⊢
        by_cases hlen : ((revise ov s x y).2.domains x).length = 0
        · rw [if_pos hlen] at hf ⊢
          exact ⟨x, hq (x, y) (List.mem_cons_self (x, y) rest),
            List.length_eq_zero.mp hlen⟩
        · rw [if_neg hlen] at hf ⊢
          have hpre : ∀ q ∈ enqueueArcs ov (revise ov s x y).2 x rest,
              q.1 ∈ (revise ov s x y).2.vars := by
            intro q hqe
            rcases mem_enqueue_foldl x (neighbors ov (revise ov s x y).2 x) rest q hqe with
              h | ⟨z, hz, rfl⟩
            · rw [revise_snd_vars]
              exact hq q (List.mem_cons_of_mem (x, y) h)
            · exact mem_of_mem_neighbors ov (revise ov s x y).2 x z hz
          obtain ⟨v, hv, hd⟩ := ih _ _ hpre hf
          exact ⟨v, by rwa [revise_snd_vars] at hv, hd⟩
      · rw [if_neg hb] at hf ⊢
        have hpre : ∀ q ∈ rest, q.1 ∈ (revise ov s x y).2.vars := by
          intro q hqr
          rw [revise_snd_vars]
          exact hq q (List.mem_cons_of_mem (x, y) hqr)
        obtain ⟨v, hv, hd⟩ := ih _ _ hpre hf
        exact ⟨v, by rwa [revise_snd_vars] at hv, hd⟩

theorem insertByCount_length (p : Word × Nat) :
    ∀ l : List (Word × Nat), (insertByCount p l).length = l.length + 1 := by
  intro l
  induction l with
  | nil => rfl
  | cons q rest ih =>
    simp only [insertByCount]
    split
    · simp only [List.length_cons, ih]
    · simp only [List.length_cons]

theorem sortByCount_foldl_length :
    ∀ (l acc : List (Word × Nat)),
      (l.foldl (fun acc p => insertByCount p acc) acc).length = acc.length + l.length := by
  intro l
  induction l with
  | nil => intro acc; simp
  | cons p rest ih =>
    intro acc
    rw [List.foldl_cons, ih, insertByCount_length]
    simp only [List.length_cons]
    omega

theorem order_domain_values_length (ov : Overlaps) (s : CSPState) (var : Variable)
    (a : Assignment) :
    (order_domain_values ov s var a).length = (s.domains var).length := by
  unfold order_domain_values sortByCount
  simp [sortByCount_foldl_length]

theorem selectFold_min (ov : Overlaps) (s : CSPState) (a : Assignment) :
    ∀ (l : List Variable) (w0 : Variable),
      ∃ w n,
        l.foldl (selectStep ov s a) (some (w0, (order_domain_values ov s w0 a).length)) =
          some (w, n) ∧
        n = (order_domain_values ov s w a).length ∧
        n ≤ (order_domain_values ov s w0 a).length ∧
        ∀ v ∈ l, n ≤ (order_domain_values ov s v a).length := by
  intro l
  induction l with
  | nil => exact fun w0 => ⟨w0, _, rfl, rfl, le_rfl, by simp⟩
  | cons z l ih =>
    intro w0
    rcases lt_trichotomy (order_domain_values ov s z a).length
        (order_domain_values ov s w0 a).length with h | h | h
    · have hstep : selectStep ov s a (some (w0, (order_domain_values ov s w0 a).length)) z =
          some (z, (order_domain_values ov s z a).length) := by
        simp only [selectStep]
        rw [if_pos h]
      obtain ⟨w, n, hf, hn, hle, hall⟩ := ih z
      refine ⟨w, n, ?_, hn, le_trans hle (le_of_lt h), ?_⟩
      · rw [List.foldl_cons, hstep]
        exact hf
      · intro v hv
        rcases List.mem_cons.mp hv with rfl | hvl
        · exact hle
        · exact hall v hvl
    · by_cases hgt : pySetGT (neighbors ov s z) (neighbors ov s w0) = true
      · have hstep : selectStep ov s a (some (w0, (order_domain_values ov s w0 a).length)) z =
            some (z, (order_domain_values ov s z a).length) := by
          simp only [selectStep]
          rw [if_neg (by omega), if_pos h, if_pos hgt]
        obtain ⟨w, n, hf, hn, hle, hall⟩ := ih z
        refine ⟨w, n, ?_, hn, le_trans hle (le_of_eq h), ?_⟩
        · rw [List.foldl_cons, hstep]
          exact hf
        · intro v hv
          rcases List.mem_cons.mp hv with rfl | hvl
          · exact hle
          · exact hall v hvl
      · have hstep : selectStep ov s a (some (w0, (order_domain_values ov s w0 a).length)) z =
            some (w0, (order_domain_values ov s w0 a).length) := by
          simp only [selectStep]
          rw [if_neg (by omega), if_pos h, if_neg hgt]
        obtain ⟨w, n, hf, hn, hle, hall⟩ := ih w0
        refine ⟨w, n, ?_, hn, hle, ?_⟩
        · rw [List.foldl_cons, hstep]
          exact hf
        · intro v hv
          rcases List.mem_cons.mp hv with rfl | hvl
          · exact le_trans hle (le_of_eq h.symm)
          · exact hall v hvl
    · have hstep : selectStep ov s a (some (w0, (order_domain_values ov s w0 a).length)) z =
          some (w0, (order_domain_values ov s w0 a).length) := by
        simp only [selectStep]
        rw [if_neg (by omega), if_neg (by omega)]
      obtain ⟨w, n, hf, hn, hle, hall⟩ := ih w0
      refine ⟨w, n, ?_, hn, hle, ?_⟩
      · rw [List.foldl_cons, hstep]
        exact hf
      · intro v hv
        rcases List.mem_cons.mp hv with rfl | hvl
        · exact le_trans hle (le_of_lt h)
        · exact hall v hvl

theorem selectFold_none_min (ov : Overlaps) (s : CSPState) (a : Assignment)
    (x : Variable) (xs : List Variable) :
    ∃ w n, (x :: xs).foldl (selectStep ov s a) none = some (w, n) ∧
      n = (order_domain_values ov s w a).length ∧
      ∀ v ∈ x :: xs, n ≤ (order_domain_values ov s v a).length := by
  obtain ⟨w, n, hf, hn, hle, hall⟩ := selectFold_min ov s a xs x
  refine ⟨w, n, ?_, hn, ?_⟩
  · rw [List.foldl_cons]
    exact hf
  · intro v hv
    rcases List.mem_cons.mp hv with rfl | hvl
    · exact hle
    · exact hall v hvl

theorem backtrack_empty_domain (ov : Overlaps) (g : Nat) (s : CSPState)
    (hvd : s.vars = s.domKeys) (v : Variable) (hv : v ∈ s.vars)
    (hdom : s.domains v = []) :
    (backtrack ov (g + 1) s []).map Prod.fst = Except.ok none := by
  have hkeys : s.domKeys ≠ [] := by
    rw [← hvd]
    exact List.ne_nil_of_mem hv
  have hcomp : assignment_complete s [] = false := by
    unfold assignment_complete
    rw [decide_eq_false_iff_not]
    intro h
    exact hkeys (List.length_eq_zero.mp h.symm)
  have hfilter :
      s.vars.filter (fun v => !(([] : Assignment).any (fun p => decide (p.1 = v)))) = s.vars :=
    List.filter_eq_self.mpr (fun a _ => rfl)
  have heta : { s with vars := s.vars } = s := rfl
  have hsel : select_unassigned_variable ov s [] =
      ((s.vars.foldl (selectStep ov s []) none).map Prod.fst, s) := by
    unfold select_unassigned_variable
    dsimp only
    rw [hfilter, heta]
  obtain ⟨x, xs, hcons⟩ := List.exists_cons_of_ne_nil (List.ne_nil_of_mem hv)
  obtain ⟨w, n, hfold, hn, hall⟩ := selectFold_none_min ov s [] x xs
  have hn0 : n = 0 := by
    have h1 := hall v (hcons ▸ hv)
    rw [order_domain_values_length ov s v [], hdom] at h1
    simpa using h1
  have horder : order_domain_values ov s w [] = [] := by
    have h2 : (order_domain_values ov s w []).length = 0 := by
      rw [← hn, hn0]
    exact List.length_eq_zero.mp h2
  simp only [backtrack, hcomp, Bool.false_eq_true, if_false, hsel, hcons, hfold]
  show Except.map Prod.fst
      (backtrackLoop (backtrack ov g) [] w (order_domain_values ov s w []) s) =
    Except.ok none
  rw [horder]
  rfl

/-! ### Claim theorems -/

/-- C1.  The claim says every assignment returned by `solve` is complete
and consistent (words of the right length, pairwise distinct, agreeing at
overlaps).  The code violates it: `backtrack` never invokes `consistent`,
and its guard `result != False` is always true in Python, so on the
two-variable instance with vocabulary `{"aaa", "bbb"}` `solve` returns the
assignment giving the word `"aaa"` to both crossing variables — a complete
but inconsistent assignment that reuses a word. -/
theorem solve_returns_word_reuse :
    (solve ovAB 10 state2).map Prod.fst =
      Except.ok (some [(varA, wordAAA), (varB, wordAAA)]) ∧
    ¬ specConsistentAssignment ovAB [(varA, wordAAA), (varB, wordAAA)] :=
  ⟨rfl, by decide⟩

/-- C2.  The claim says `backtrack` only accepts and recurses into a
tentative assignment when it passes `consistent`, un-assigns on failure
and tries the next candidate, failing only after exhausting candidates.
The code violates it: on the two-variable instance, `backtrack` starting
from the empty assignment returns an assignment that its own `consistent`
predicate rejects (`some false`), so the inconsistent candidate was
accepted and recursed into without any consistency check, and no later
candidate was ever tried. -/
theorem backtrack_accepts_inconsistent_candidate :
    (backtrack ovAB 10 state2 []).map Prod.fst =
      Except.ok (some [(varA, wordAAA), (varB, wordAAA)]) ∧
    consistent ovAB state2 [(varA, wordAAA), (varB, wordAAA)] = some false :=
  ⟨rfl, rfl⟩

/-- C3.  The claim says `consistent` returns `True` iff no constraint is
violated over all pairs of assigned variables.  The code violates it: its
`return True` sits inside the outer loop, so only the first assigned
variable is checked.  On the assignment `{X: "aaa", Y: "bbb", Z: "bbb"}`
(no overlaps anywhere) the variables `Y` and `Z` reuse the word `"bbb"`,
yet `consistent` returns `True` because the scan stops after `X`. -/
theorem consistent_checks_only_first_variable :
    consistent ovNone state3 assignYZreuse = some true ∧
    ¬ specConsistentAssignment ovNone assignYZreuse :=
  ⟨rfl, by decide⟩

/-- C7.  The claim says the crossword's variable set is unchanged by every
solver operation.  The code violates it: `select_unassigned_variable`
executes `variables.difference_update(assignment)` on
`self.crossword.variables` itself, so calling it with `varA` assigned
removes `varA` from the crossword's variable set. -/
theorem select_mutates_crossword_variables :
    (select_unassigned_variable ovAB state2 [(varA, wordAAA)]).2.vars = [varB] ∧
    state2.vars = [varA, varB] ∧ ([varB] : List Variable) ≠ [varA, varB] :=
  ⟨rfl, rfl, by decide⟩

/-- C8.  The claim says that among unassigned variables tied on remaining
domain size, `select_unassigned_variable` returns one with the largest
neighbor set.  The code compares neighbor sets with Python's set `>`
(strict superset) instead of comparing degrees, so on the five-variable
instance where every domain has size 2, it returns `varV1` of degree 1
even though the tied `varV2` has degree 2 (their neighbor sets are
incomparable, so the superset test never fires). -/
theorem select_degree_tiebreak_wrong :
    (select_unassigned_variable ov8 state8 []).1 = some varV1 ∧
    (order_domain_values ov8 state8 varV1 []).length =
      (order_domain_values ov8 state8 varV2 []).length ∧
    (neighbors ov8 state8 varV1).length < (neighbors ov8 state8 varV2).length :=
  ⟨rfl, rfl, by decide⟩

/-- C9.  The claim says two invocations of `solve` on the same problem
instance return equal results.  The code violates it: the first `solve` on
the two-variable instance returns an assignment but, through
`select_unassigned_variable`, permanently deletes the assigned variables
from `self.crossword.variables`; the second invocation then reaches the
`('x', inf)` sentinel and dies on `self.domains['x']` (a `KeyError`,
modelled as `Except.error`), so the two results differ. -/
theorem second_solve_differs :
    (solveTwice ovAB 10 state2).1 =
      Except.ok (some [(varA, wordAAA), (varB, wordAAA)]) ∧
    (solveTwice ovAB 10 state2).2 = Except.error () ∧
    (Except.ok (some [(varA, wordAAA), (varB, wordAAA)]) :
        Except Unit (Option Assignment)) ≠ Except.error () :=
  ⟨rfl, rfl, fun h => Except.noConfusion h⟩

/-- C4.  Characterization of `revise(x, y)` for distinct `x`, `y`: with no
overlap, nothing changes and `False` is returned; with overlap `(i, j)`,
`x`'s new domain is exactly the subset of its previous domain supported by
some word of `y`'s domain at the overlap letters, `y`'s domain and the
variable set are untouched, and `True` is returned iff `x`'s domain
strictly shrank. -/
theorem revise_characterization (ov : Overlaps) (s : CSPState) (x y : Variable)
    (hxy : x ≠ y) :
    (ov x y = none → revise ov s x y = (false, s)) ∧
    (∀ i j, ov x y = some (i, j) →
      (revise ov s x y).2.domains x =
        (s.domains x).filter (fun wordX =>
          (s.domains y).any (fun wordY => decide (wordX.getD i ' ' = wordY.getD j ' '))) ∧
      (revise ov s x y).2.domains y = s.domains y ∧
      (revise ov s x y).2.vars = s.vars ∧
      ((revise ov s x y).1 = true ↔
        ((revise ov s x y).2.domains x).length < (s.domains x).length)) := by
  constructor
  · intro h
    unfold revise
    rw [h]
  · intro i j h
    unfold revise
    rw [h]
    dsimp only
    by_cases hf : (s.domains x).filter (fun wordX =>
        (s.domains y).any (fun wordY => decide (wordX.getD i ' ' = wordY.getD j ' '))) =
        s.domains x
    · rw [if_pos hf]
      exact ⟨hf.symm, rfl, rfl, by simp⟩
    · rw [if_neg hf]
      dsimp only
      refine ⟨Function.update_same x _ s.domains, ?_, rfl, ?_⟩
      · exact Function.update_noteq (Ne.symm hxy) _ s.domains
      · rw [Function.update_same x _ s.domains]
        have hsub := List.filter_sublist (p := fun wordX =>
          (s.domains y).any (fun wordY => decide (wordX.getD i ' ' = wordY.getD j ' ')))
          (s.domains x)
        exact ⟨fun _ => lt_of_le_of_ne hsub.length_le
          (fun heq => hf (hsub.eq_of_length heq)), fun _ => rfl⟩

/-- C4 witness: on the concrete instance where `varP`'s domain is
`{"a", "b"}`, `varQ`'s is `{"a"}` and they overlap at `(0, 0)`, the
characterization applies: `varQ`'s domain is untouched and `revise`
reports a revision, since `"b"` is pruned. -/
theorem revise_characterization_witness :
    varP ≠ varQ ∧
    (revise ovPQ state5 varP varQ).2.domains varQ = state5.domains varQ ∧
    (revise ovPQ state5 varP varQ).1 = true :=
  ⟨by decide,
   ((revise_characterization ovPQ state5 varP varQ (by decide)).2 0 0 rfl).2.1,
   (((revise_characterization ovPQ state5 varP varQ (by decide)).2 0 0 rfl).2.2.2).mpr
     (by decide)⟩

/-- C5 counterexample.  The claim says that after a revision of `(x, y)`
with nonempty domain, exactly the arcs `(z, x)` for neighbors `z ≠ y` are
re-enqueued.  On the concrete instance, `revise(varP, varQ)` reports a
revision with nonempty domain, `varP`'s only neighbor is `varQ` itself,
and the code appends `(varQ, varP)` to the empty pending queue — whereas
the claim's rule (excluding `z = y`) would append nothing. -/
theorem ac3_requeues_arc_back_to_y :
    (revise ovPQ state5 varP varQ).1 = true ∧
    (revise ovPQ state5 varP varQ).2.domains varP ≠ [] ∧
    enqueueArcs ovPQ (revise ovPQ state5 varP varQ).2 varP [] = [(varQ, varP)] ∧
    ((neighbors ovPQ (revise ovPQ state5 varP varQ).2 varP).filter
        (fun z => decide (z ≠ varQ))).map (fun z => (z, varP)) = [] ∧
    ([(varQ, varP)] : List (Variable × Variable)) ≠ [] :=
  ⟨rfl, by decide, rfl, rfl, by decide⟩

theorem enqueue_foldl_eq (x : Variable) :
    ∀ (l : List Variable), l.Nodup → ∀ arcs : List (Variable × Variable),
      l.foldl (fun acc z => if (z, x) ∈ acc then acc else acc ++ [(z, x)]) arcs =
        arcs ++ (l.filter (fun z => decide ((z, x) ∉ arcs))).map (fun z => (z, x)) := by
  intro l
  induction l with
  | nil => intro _ arcs; simp
  | cons z l ih =>
    intro hnd arcs
    have hz := (List.nodup_cons.mp hnd).1
    have hl := (List.nodup_cons.mp hnd).2
    rw [List.foldl_cons]
    by_cases hmem : (z, x) ∈ arcs
    · have hdec : decide ((z, x) ∉ arcs) = false := by simp [hmem]
      rw [if_pos hmem, ih hl arcs]
      simp [List.filter_cons, hdec]
      rw [if_pos hmem]
    · have hdec : decide ((z, x) ∉ arcs) = true := by simp [hmem]
      rw [if_neg hmem, ih hl (arcs ++ [(z, x)])]
      have hflt : l.filter (fun b => decide ((b, x) ∉ arcs ++ [(z, x)])) =
          l.filter (fun b => decide ((b, x) ∉ arcs)) := by
        apply List.filter_congr
        intro b hb
        have hbz : b ≠ z := fun hbeq => hz (hbeq ▸ hb)
        simp [List.mem_append, Prod.ext_iff, hbz]
      rw [hflt]
      simp [List.filter_cons, hdec, List.append_assoc]
      rw [if_neg hmem]
      simp

/-- C5 amended.  What the code actually does upon a revision of `(x, y)`
with nonempty resulting domain: it continues with the queue extended by
exactly the arcs `(z, x)` for every neighbor `z` of `x` — including
`z = y`, which the source does not exclude — skipping arcs already
pending.  (The duplicate-suppression part of the claim holds; only the
exclusion of `y` does not.) -/
theorem enqueue_characterization (ov : Overlaps) (s : CSPState) (x : Variable)
    (h : s.vars.Nodup) :
    (∀ (y : Variable) (g : Nat) (rest : List (Variable × Variable)),
        (revise ov s x y).1 = true → (revise ov s x y).2.domains x ≠ [] →
        ac3core ov (g + 1) s ((x, y) :: rest) =
          ac3core ov g (revise ov s x y).2 (enqueueArcs ov (revise ov s x y).2 x rest)) ∧
    (∀ arcs : List (Variable × Variable),
      enqueueArcs ov s x arcs =
        arcs ++ ((neighbors ov s x).filter (fun z => decide ((z, x) ∉ arcs))).map
          (fun z => (z, x))) := by
  constructor
  · intro y g rest h1 h2
    simp only [ac3core]
    rw [if_pos h1, if_neg (fun hlen => h2 (List.length_eq_zero.mp hlen))]
  · intro arcs
    exact enqueue_foldl_eq x (neighbors ov s x) (h.filter _) arcs

/-- C5 amended witness: on the concrete instance, the post-revision state
has nodup variables and the appended arc list is exactly `[(varQ, varP)]`:
the arc pointing back at `y = varQ` is included. -/
theorem enqueue_characterization_witness :
    (revise ovPQ state5 varP varQ).2.vars.Nodup ∧
    enqueueArcs ovPQ (revise ovPQ state5 varP varQ).2 varP [] = [(varQ, varP)] := by
  refine ⟨by decide, ?_⟩
  rw [(enqueue_characterization ovPQ (revise ovPQ state5 varP varQ).2 varP
    (by decide)).2 []]
  decide

/-- C6.  When a revision empties a domain, `ac3` stops immediately and
reports failure (first conjunct); and whenever `ac3` run by `solve`
reports failure on an instance's initial state, `solve` returns the same
no-solution signal `None` that an exhausted backtracking search returns —
never an assignment (second conjunct).  The source discards `ac3`'s
Boolean result, but the minimum-remaining-values rule then selects the
emptied domain first, so `backtrack` still falls through to `None`. -/
theorem ac3_failure_solve_none (ov : Overlaps) (vars0 : List Variable) (ws : List Word)
    (fuel : Nat)
    (hfail : (ac3 ov fuel (enforce_node_consistency (initState vars0 ws)) none).1 = false) :
    (∀ (g : Nat) (s : CSPState) (x y : Variable) (rest : List (Variable × Variable)),
        (revise ov s x y).1 = true → (revise ov s x y).2.domains x = [] →
        ac3core ov (g + 1) s ((x, y) :: rest) = (false, (revise ov s x y).2)) ∧
    (solve ov fuel (initState vars0 ws)).map Prod.fst = Except.ok none := by
  constructor
  · intro g s x y rest h1 h2
    simp only [ac3core]
    rw [if_pos h1, if_pos (by rw [h2]; rfl)]
  · have harcs : ∀ q ∈ (enforce_node_consistency (initState vars0 ws)).domKeys.flatMap
        (fun x => ((enforce_node_consistency (initState vars0 ws)).domKeys.filter
          (fun y => decide (y ≠ x))).map (fun y => (x, y))),
        q.1 ∈ (enforce_node_consistency (initState vars0 ws)).vars := by
      intro q hq
      rw [List.mem_flatMap] at hq
      obtain ⟨x, hx, hmap⟩ := hq
      rw [List.mem_map] at hmap
      obtain ⟨y, _, rfl⟩ := hmap
      exact hx
    have hfail2 : (ac3core ov fuel (enforce_node_consistency (initState vars0 ws))
        ((enforce_node_consistency (initState vars0 ws)).domKeys.flatMap
          (fun x => ((enforce_node_consistency (initState vars0 ws)).domKeys.filter
            (fun y => decide (y ≠ x))).map (fun y => (x, y))))).1 = false := hfail
    obtain ⟨v, hv, hd⟩ := ac3core_false_empty ov fuel
      (enforce_node_consistency (initState vars0 ws)) _ harcs hfail2
    have hv2 : v ∈ (ac3core ov fuel (enforce_node_consistency (initState vars0 ws))
        ((enforce_node_consistency (initState vars0 ws)).domKeys.flatMap
          (fun x => ((enforce_node_consistency (initState vars0 ws)).domKeys.filter
            (fun y => decide (y ≠ x))).map (fun y => (x, y))))).2.vars := by
      rw [ac3core_snd_vars]
      exact hv
    have hvd : (ac3core ov fuel (enforce_node_consistency (initState vars0 ws))
        ((enforce_node_consistency (initState vars0 ws)).domKeys.flatMap
          (fun x => ((enforce_node_consistency (initState vars0 ws)).domKeys.filter
            (fun y => decide (y ≠ x))).map (fun y => (x, y))))).2.vars =
        (ac3core ov fuel (enforce_node_consistency (initState vars0 ws))
        ((enforce_node_consistency (initState vars0 ws)).domKeys.flatMap
          (fun x => ((enforce_node_consistency (initState vars0 ws)).domKeys.filter
            (fun y => decide (y ≠ x))).map (fun y => (x, y))))).2.domKeys := by
      rw [ac3core_snd_vars, ac3core_snd_domKeys]
      rfl
    cases fuel with
    | zero => exact absurd hfail2 (by simp [ac3core])
    | succ g =>
      exact backtrack_empty_domain ov g _ hvd v hv2 hd

/-- C6 witness: the unsatisfiable instance (`varC` needs a length-1 word,
`varD` a length-2 word, their first letters must agree, and the only
candidates are `"a"` and `"bc"`): `ac3` reports failure and `solve`
returns `None`. -/
theorem ac3_failure_solve_none_witness :
    (ac3 ovCD 5 (enforce_node_consistency (initState [varC, varD] wordsCD)) none).1 =
      false ∧
    (solve ovCD 5 (initState [varC, varD] wordsCD)).map Prod.fst = Except.ok none :=
  ⟨rfl, (ac3_failure_solve_none ovCD [varC, varD] wordsCD 5 rfl).2⟩

/-- C10.  Applied to the empty assignment, `consistent` never enters its
loop and falls off the end of the function, returning Python `None`
(modelled as `Option.none`) rather than `True`. -/
theorem consistent_empty_assignment_none (ov : Overlaps) (s : CSPState) :
    consistent ov s [] = none ∧ (none : Option Bool) ≠ some true :=
  ⟨rfl, by decide⟩

/-- C10 at a concrete instance: `consistent` of the two-variable instance
applied to the empty assignment is `none`. -/
theorem consistent_empty_assignment_none_witness :
    consistent ovAB state2 [] = none :=
  (consistent_empty_assignment_none ovAB state2).1

end CrosswordCSP
